import Mathlib

/-!
Verification of the lead-enrichment pipeline of `src/app.py`
(OSM lead generator): lead scoring (`score_lead_from_row`),
domain deduplication (`deduplicate_by_domain`), the website crawler
(`fetch_page_emails_and_social`), the batch scheduler
(`gather_website_info`) and its semaphore-based concurrency gate.

The Python code is shallowly embedded: DataFrame rows become structures,
the network becomes an explicit oracle `Net`, the on-disk JSON cache an
association list, and the `asyncio.Semaphore` a labelled transition
system.  `tldextract.extract` is abstracted as a parameter
`TldFn : String → String × String` returning the (domain, suffix) pair,
with the empty string standing for a missing part, exactly as the
library's attributes behave.
-/

/-! ## String helpers (models of Python string primitives) -/

/-- ASCII lower-casing of one character, the fragment of Python's
`str.lower` exercised by the code (URLs and email addresses). -/
def lowerChar (c : Char) : Char :=
  if 'A' ≤ c && c ≤ 'Z' then Char.ofNat (c.toNat + 32) else c

/-- Model of Python `str.lower()`. -/
def lowerString (s : String) : String := ⟨s.data.map lowerChar⟩

/-- Test `startChars p s`: whether `s` begins with `p`. -/
def startChars : List Char → List Char → Bool
  | [], _ => true
  | _ :: _, [] => false
  | c :: cs, d :: ds => c == d && startChars cs ds

/-- Test `subchars p s`: whether `p` occurs contiguously inside `s`. -/
def subchars (p : List Char) : List Char → Bool
  | [] => p.isEmpty
  | c :: cs => startChars p (c :: cs) || subchars p cs

/-- Model of Python `s.startswith(p)`. -/
def strBegins (s p : String) : Bool := startChars p.data s.data

/-- Model of Python `p in s` (substring containment). -/
def strHasSub (s p : String) : Bool := subchars p.data s.data

/-! ## Lead scoring: `score_lead_from_row` (src/app.py lines 120-137) -/

/-- The `emails` cell of a DataFrame row: Python `None` (or any
non-`str`, non-`list` value), a string, or a list of strings. -/
inductive EmailsField where
  | na : EmailsField
  | str (s : String) : EmailsField
  | list (l : List String) : EmailsField
  deriving DecidableEq, Repr

/-- A lead row as read by `score_lead_from_row`: the `emails` cell, the
six social-platform cells and the `website` cell ( `"N/A"` is the
in-band absent marker used throughout the script). -/
structure Row where
  emails : EmailsField
  facebook : Option String
  instagram : Option String
  linkedin : Option String
  twitter : Option String
  tiktok : Option String
  youtube : Option String
  website : Option String
  deriving DecidableEq, Repr

/-- Python truthiness test `v and v != "N/A"` used for each social cell. -/
def socialVal : Option String → Bool
  | none => false
  | some s => s != "" && s != "N/A"

/-- The email contribution of `score_lead_from_row`:
`isinstance(emails, list) and len(emails) > 0` gives +2, else
`isinstance(emails, str) and emails != "N/A"` gives +2, else 0. -/
def emailPoints : EmailsField → Nat
  | .list l => if l.isEmpty then 0 else 2
  | .str s => if s != "N/A" then 2 else 0
  | .na => 0

/-- The six social cells in the order the Python loop reads them. -/
def socialFields (row : Row) : List (Option String) :=
  [row.facebook, row.instagram, row.linkedin, row.twitter, row.tiktok, row.youtube]

/-- Model of `score_lead_from_row` from src/app.py: starts at 0, adds the email
contribution, then +1 for each populated social cell. -/
def score_lead_from_row (row : Row) : Nat :=
  (socialFields row).foldl (fun s v => if socialVal v then s + 1 else s)
    (emailPoints row.emails)

/-- Number of populated social platforms of a row. -/
def socialCount (row : Row) : Nat := (socialFields row).countP (socialVal ·)

/-- Whether the code's email test fires (any email value present). -/
def emailsPresent : EmailsField → Bool
  | .list l => !l.isEmpty
  | .str s => s != "N/A"
  | .na => false

/-- The generic-role prefixes filtered by the crawler
(src/app.py line 292), in source order. -/
def genericMarkers : List String :=
  ["info@", "noreply@", "no-reply@", "admin@", "support@", "contact@"]

/-- Test `any(m.lower().startswith(p) for p in ...)` from src/app.py. -/
def genericPrefixed (m : String) : Bool :=
  genericMarkers.any (fun p => strBegins (lowerString m) p)

/-- Emails denoted by an `emails` cell, reading a string cell as the
comma-joined list produced by `norm_emails` (spec §3's set of strings). -/
def specEmailList : EmailsField → List String
  | .na => []
  | .str s => if s == "N/A" || s == "" then [] else s.splitOn ", "
  | .list l => l

/-- Website presence (`"N/A"`, `None` and `""` mean absent). -/
def websiteVal (w : Option String) : Bool := socialVal w

/-- The scoring rule as the SPEC states it (§4.5): +3 per non-generic
email, +1 per generic email, +1 per populated social platform, +2 when
a website is present.  Used only to compare against the code's scorer. -/
def specScore (row : Row) : Nat :=
  (specEmailList row.emails).foldl
      (fun s m => s + (if genericPrefixed m then 1 else 3)) 0
    + socialCount row
    + (if websiteVal row.website then 2 else 0)

/-- A lead with one non-generic email and a website and no socials:
the spec's rule gives 3 + 2 = 5, the code gives a flat 2. -/
def c1row : Row :=
  { emails := EmailsField.list ["sales@shop.com"]
    facebook := some "N/A", instagram := some "N/A", linkedin := some "N/A"
    twitter := some "N/A", tiktok := some "N/A", youtube := some "N/A"
    website := some "http://shop.com" }

/-- Witness for C1's amended theorem at a concrete empty row. -/
def row0 : Row :=
  { emails := EmailsField.na, facebook := none, instagram := none
    linkedin := none, twitter := none, tiktok := none, youtube := none
    website := none }

/-- Witness for C9 at a concrete row with an email present. -/
def row9 : Row :=
  { emails := EmailsField.str "a@b.com", facebook := some "https://facebook.com/a"
    instagram := none, linkedin := none, twitter := none, tiktok := none
    youtube := none, website := some "http://b.com" }

/-! ## Domain deduplication: `deduplicate_by_domain` (src/app.py 87-118) -/

/-- A DataFrame row as read by `deduplicate_by_domain`: the `website`
cell and the `__score_sort` value (which the caller sets to
`lead_score`); the remaining columns, which the function never reads,
are abstracted as the `name` payload. -/
structure LeadRow where
  name : String
  website : Option String
  score : Nat
  deriving DecidableEq, Repr

/-- Abstraction of `tldextract.extract`: for a URL the pair
`(ext.domain, ext.suffix)`, with `""` standing for a missing part,
exactly as the library's attributes behave. -/
def TldFn := String → String × String

/-- The inner `domain_of` helper of `deduplicate_by_domain`:
`None`/`""`/`"N/A"` have no domain; otherwise `domain.suffix` when a
suffix exists, the bare domain when not, and no domain when
`ext.domain` is empty. -/
def domain_of (tldx : TldFn) (url : Option String) : Option String :=
  match url with
  | none => none
  | some u =>
    if u == "" || u == "N/A" then none
    else
      let e := tldx u
      if e.1 != "" then some (if e.2 != "" then e.1 ++ "." ++ e.2 else e.1)
      else none

/-- Test `hasDomain tldx d r`: row `r` resolves to registrable domain `d`. -/
def hasDomain (tldx : TldFn) (d : String) (r : LeadRow) : Bool :=
  domain_of tldx r.website == some d

/-- Test `noDomain tldx r`: row `r` has no resolvable domain. -/
def noDomain (tldx : TldFn) (r : LeadRow) : Bool :=
  (domain_of tldx r.website).isNone

/-- The descending score order used by
`df.sort_values("__score_sort", ascending=False)`. -/
def leadLE (a b : LeadRow) : Prop := b.score ≤ a.score

instance : DecidableRel leadLE := fun a b => Nat.decLe b.score a.score

instance : IsTotal LeadRow leadLE := ⟨fun a b => Nat.le_total b.score a.score⟩

instance : IsTrans LeadRow leadLE :=
  ⟨fun _ _ _ h1 h2 => Nat.le_trans h2 h1⟩

/-- The scan over the sorted rows: the first row per domain goes to the
`keep_rows` list, rows without a domain go to `no_domain_rows`. -/
def dedupLoop (tldx : TldFn) (seen : List String) :
    List LeadRow → List LeadRow × List LeadRow
  | [] => ([], [])
  | r :: rest =>
    match domain_of tldx r.website with
    | some d =>
        if d ∈ seen then dedupLoop tldx seen rest
        else
          let p := dedupLoop tldx (d :: seen) rest
          (r :: p.1, p.2)
    | none =>
        let p := dedupLoop tldx seen rest
        (p.1, r :: p.2)

/-- Model of `deduplicate_by_domain` from src/app.py: sort by score
descending, keep the first row of each domain, then append the rows
without a domain.  The sort is the external library call
`df.sort_values("__score_sort", ascending=False)`, abstracted — like
`tldextract` — as a parameter `sortImpl`; `sortValuesSpec` below
states its documented contract. -/
def deduplicate_by_domain (sortImpl : List LeadRow → List LeadRow)
    (tldx : TldFn) (rows : List LeadRow) : List LeadRow :=
  let s := sortImpl rows
  let p := dedupLoop tldx [] s
  p.1 ++ p.2

/-- The documented contract of `sort_values(..., ascending=False)`:
the output is a permutation of the rows sorted by score descending.
Nothing more is promised — with the default `kind='quicksort'` the
sort is NOT stable, so the relative order of rows with equal scores is
unspecified. -/
def sortValuesSpec (sortImpl : List LeadRow → List LeadRow) : Prop :=
  ∀ rows : List LeadRow,
    (sortImpl rows).Perm rows ∧ (sortImpl rows).Sorted leadLE

/-- One conforming implementation: a stable descending sort (what
`kind='stable'` would give). -/
def stableSortImpl (rows : List LeadRow) : List LeadRow :=
  rows.insertionSort leadLE

/-- Maximum `lead_score` within a group of rows. -/
def maxScoreOf (g : List LeadRow) : Nat := g.foldr (fun r m => max r.score m) 0

/-- The representative the ORIGINAL claim designates for domain `d`:
among the input rows resolving to `d`, the one of maximum
`lead_score`, ties broken by earliest position in the input
sequence. -/
def claimedKeeper (tldx : TldFn) (d : String) (rows : List LeadRow) :
    Option LeadRow :=
  let g := rows.filter (hasDomain tldx d)
  g.find? (fun r => r.score == maxScoreOf g)

/-- Witness data for C3: two rows on the same domain with scores 2 and
7 and one `"N/A"`-website row, with a constant extract function. -/
def tldxW : TldFn := fun _ => ("example", "com")

def rowsW : List LeadRow :=
  [ { name := "a", website := some "http://example.com", score := 2 }
  , { name := "b", website := some "http://example.com/x", score := 7 }
  , { name := "c", website := some "N/A", score := 0 } ]

/-- The score-7 row of `rowsW` (the one deduplication keeps). -/
def rowW1 : LeadRow :=
  { name := "b", website := some "http://example.com/x", score := 7 }

/-- Counterexample data for C3: two rows of the same domain with EQUAL
score 5, in this input order. -/
def rowT0 : LeadRow :=
  { name := "first", website := some "http://example.com", score := 5 }

def rowT1 : LeadRow :=
  { name := "second", website := some "http://example.com/x", score := 5 }

def rowsT : List LeadRow := [rowT0, rowT1]

/-- A sort implementation meeting the documented contract that emits
the two tied rows of `rowsT` in the reverse of input order — as the
default unstable `kind='quicksort'` is permitted to do. -/
def badSort (rows : List LeadRow) : List LeadRow :=
  if rows = rowsT then [rowT1, rowT0] else rows.insertionSort leadLE

/-! ## Website crawler: `fetch_page_emails_and_social` (src/app.py 261-324) -/

/-- A parsed hyperlink: anchor text and `href` attribute.  The code
only ever reads the `href`. -/
structure Anchor where
  text : String
  href : String
  deriving DecidableEq, Repr

/-- One network fetch outcome: an exception (timeout, connection
error), or an HTTP response carrying its status code, the email-shaped
tokens `EMAIL_RE` finds in the body, and the parsed hyperlinks. -/
inductive FetchOutcome where
  | failure : FetchOutcome
  | response (status : Nat) (emailsFound : List String) (anchors : List Anchor) :
      FetchOutcome
  deriving DecidableEq, Repr

/-- The network oracle: the outcome of fetching a URL at a given
attempt index. -/
abbrev Net := String → Nat → FetchOutcome

/-- The `social` dict: one slot per platform, `"N/A"` when unset. -/
structure Social where
  facebook : String
  instagram : String
  linkedin : String
  twitter : String
  tiktok : String
  youtube : String
  deriving DecidableEq, Repr

/-- Initial social dict: every platform slot set to the string N/A. -/
def initSocial : Social :=
  { facebook := "N/A", instagram := "N/A", linkedin := "N/A"
    twitter := "N/A", tiktok := "N/A", youtube := "N/A" }

/-- The platform loop of src/app.py lines 298-304, in dict order: a
slot is set to this `href` when the platform marker is a substring of
it and the slot is still `"N/A"` (first found wins; the dict is
initialised to `"N/A"`, so the `None` alternative never occurs). -/
def updSocial (social : Social) (href : String) : Social :=
  let s1 := if strHasSub href "facebook.com" && (social.facebook == "N/A")
    then { social with facebook := href } else social
  let s2 := if strHasSub href "instagram.com" && (s1.instagram == "N/A")
    then { s1 with instagram := href } else s1
  let s3 := if strHasSub href "linkedin.com" && (s2.linkedin == "N/A")
    then { s2 with linkedin := href } else s2
  let s4 := if strHasSub href "twitter.com" && (s3.twitter == "N/A")
    then { s3 with twitter := href } else s3
  let s5 := if strHasSub href "tiktok.com" && (s4.tiktok == "N/A")
    then { s4 with tiktok := href } else s4
  if strHasSub href "youtube.com" && (s5.youtube == "N/A")
    then { s5 with youtube := href } else s5

/-- Base resolution: scheme https plus domain dot suffix when the suffix is
nonempty, else scheme plus bare domain, where the extraction runs on the
ORIGINAL `url` argument, not the page being parsed. -/
def mkBase (tldx : TldFn) (url : String) : String :=
  let e := tldx url
  if e.2 != "" then "https://" ++ e.1 ++ "." ++ e.2 else "https://" ++ e.1

/-- Model of `emails.add(m)` on a Python set: a duplicate-free list
in insertion order. -/
def insertEmail (acc : List String) (m : String) : List String :=
  if m ∈ acc then acc else acc ++ [m]

/-- The email loop of src/app.py lines 290-293: each regex match is
added unless its lower-cased form starts with a generic prefix. -/
def addEmails (acc : List String) (found : List String) : List String :=
  found.foldl (fun a m => if genericPrefixed m then a else insertEmail a m) acc

/-- The follow test of src/app.py line 307:
`("contact" in href_l or "about" in href_l) and href_l.startswith("/")`
on the lower-cased `href` (the anchor text plays no role). -/
def followHref (href : String) : Bool :=
  let hl := lowerString href
  (strHasSub hl "contact" || strHasSub hl "about") && strBegins hl "/"

/-- The anchor loop of one page: updates the social dict and appends
`next_url = base + href` to `urls_to_check` when it passes `followHref`
and is not already present.  Returns the social dict, the extended
`urls_to_check`, and the queue of newly appended URLs in order. -/
def anchorsFold (tldx : TldFn) (base_url : String) :
    List Anchor → Social → List String → Social × List String × List String
  | [], social, all => (social, all, [])
  | a :: rest, social, all =>
    let social' := updSocial social a.href
    if followHref a.href then
      let nu := mkBase tldx base_url ++ a.href
      if nu ∈ all then anchorsFold tldx base_url rest social' all
      else
        let p := anchorsFold tldx base_url rest social' (all ++ [nu])
        (p.1, p.2.1, nu :: p.2.2)
    else anchorsFold tldx base_url rest social' all

/-- The retry loop of src/app.py lines 283-317 for one page, with
`rem` attempts left: an exception sleeps 0.5 s and retries, a non-200
response breaks out (giving up on the page without retrying), a 200
response is parsed.  Returns the parsed body when one was obtained and
the log of network accesses `(page_url, attempt)`. -/
def tryFetch (net : Net) (page_url : String) :
    Nat → Nat → Option (List String × List Anchor) × List (String × Nat)
  | _, 0 => (none, [])
  | attempt, rem + 1 =>
    match net page_url attempt with
    | .failure =>
        let p := tryFetch net page_url (attempt + 1) rem
        (p.1, (page_url, attempt) :: p.2)
    | .response s es ans =>
        if s == 200 then (some (es, ans), [(page_url, attempt)])
        else (none, [(page_url, attempt)])

/-- The `for page_url in urls_to_check` loop: processes the pending
queue in order while it grows with follow candidates; `fuel` bounds the
number of pages processed (the Python loop has no intrinsic bound).
State: pending queue, full `urls_to_check`, email accumulator, social
dict, network log. -/
def crawlLoop (tldx : TldFn) (net : Net) (base_url : String) :
    Nat → List String → List String → List String → Social →
      List (String × Nat) → List String × Social × List (String × Nat)
  | 0, _, _, emails, social, log => (emails, social, log)
  | _ + 1, [], _, emails, social, log => (emails, social, log)
  | fuel + 1, u :: pending, all, emails, social, log =>
    match tryFetch net u 0 2 with
    | (none, plog) =>
        crawlLoop tldx net base_url fuel pending all emails social (log ++ plog)
    | (some (es, ans), plog) =>
        let q := anchorsFold tldx base_url ans social all
        crawlLoop tldx net base_url fuel (pending ++ q.2.2) q.2.1
          (addEmails emails es) q.1 (log ++ plog)

/-- Code-point comparison of strings, as used by Python `sorted`. -/
def charListLe : List Char → List Char → Bool
  | [], _ => true
  | _ :: _, [] => false
  | c :: cs, d :: ds => c < d || (c == d && charListLe cs ds)

def insertStr (a : String) : List String → List String
  | [] => [a]
  | b :: l => if charListLe a.data b.data then a :: b :: l else b :: insertStr a l

/-- Model of `emails = list(sorted(emails))`. -/
def sortStrings : List String → List String
  | [] => []
  | a :: l => insertStr a (sortStrings l)

/-- The value a crawl returns and caches: the sorted email list and
the social dict. -/
structure CrawlResult where
  emails : List String
  social : Social
  deriving DecidableEq, Repr

/-- Empty result (no emails, every social slot N/A): what an absent URL or a fully failed
crawl produces. -/
def emptyCrawlResult : CrawlResult := { emails := [], social := initSocial }

/-- The on-disk JSON cache keyed by URL (`website_cache_key`), as an
association list; a put overwrites any earlier entry. -/
abbrev Cache := List (String × CrawlResult)

def cacheGet (c : Cache) (url : String) : Option CrawlResult :=
  match c.find? (fun e => e.1 == url) with
  | some e => some e.2
  | none => none

def cachePut (c : Cache) (url : String) (r : CrawlResult) : Cache :=
  (url, r) :: c

/-- Model of `fetch_page_emails_and_social` of src/app.py: short-circuit for an
absent URL, cache hit, else crawl starting from `url`, sort the
emails, write the cache.  Returns the result, the updated cache, and
the network access log. -/
def fetch_page_emails_and_social (tldx : TldFn) (net : Net) (fuel : Nat)
    (cache : Cache) (url : Option String) :
    CrawlResult × Cache × List (String × Nat) :=
  match url with
  | none => (emptyCrawlResult, cache, [])
  | some u =>
    if u == "" || u == "N/A" then (emptyCrawlResult, cache, [])
    else
      match cacheGet cache u with
      | some r => (r, cache, [])
      | none =>
          let p := crawlLoop tldx net u fuel [u] [u] [] initSocial []
          let r : CrawlResult := { emails := sortStrings p.1, social := p.2.1 }
          (r, cachePut cache u r, p.2.2)

/-- Model of `gather_website_info` of src/app.py: one worker per website, each
returning a record keyed by the url with the emails and socials; `asyncio.gather`
keeps task order.  The semaphore only bounds parallelism; the workers'
crawls are modelled by their linearisation threading the shared
cache. -/
def gather_website_info (tldx : TldFn) (net : Net) (fuel : Nat) :
    Cache → List String → List (String × CrawlResult)
  | _, [] => []
  | cache, w :: ws =>
    let p := fetch_page_emails_and_social tldx net fuel cache (some w)
    (w, p.1) :: gather_website_info tldx net fuel p.2.1 ws

/-- Key test for entries of the result list (`scrape_map` lookup). -/
def keyIs (w : String) (e : String × CrawlResult) : Bool := e.1 == w

/-- An outcome that is not a successful HTTP 200 response: an
exception or a non-success status. -/
def failedOutcome : FetchOutcome → Bool
  | .failure => true
  | .response s _ _ => s != 200

/-- A non-200 HTTP response (no retry happens on these). -/
def non200 : FetchOutcome → Bool
  | .failure => false
  | .response s _ _ => s != 200

/-- The per-page follow candidates in append order, tracking the
running `urls_to_check` membership test. -/
def candidateUrls (tldx : TldFn) (base_url : String) :
    List Anchor → List String → List String
  | [], _ => []
  | a :: rest, all =>
    if followHref a.href then
      let nu := mkBase tldx base_url ++ a.href
      if nu ∈ all then candidateUrls tldx base_url rest all
      else nu :: candidateUrls tldx base_url rest (all ++ [nu])
    else candidateUrls tldx base_url rest all

/-- The URLs a page's anchors add to a crawl that started at `url`. -/
def followCandidates (tldx : TldFn) (url : String) (anchors : List Anchor) :
    List String :=
  candidateUrls tldx url anchors [url]

/-! ## Concurrency gate of `gather_website_info` (src/app.py 326-341)

`asyncio.Semaphore(concurrency)` with each worker running
`async with sem: ...crawl...` is modelled as a transition system: a
worker waiting on the gate may enter while a slot is free (the
counter decrements), and a worker finishing its crawl — normally or by
exception, as `async with` guarantees — leaves (the counter
increments), exactly once. -/

inductive WStatus where
  | waiting : WStatus
  | running : WStatus
  | done : WStatus
  deriving DecidableEq, Repr

/-- Scheduler state: free slots of the semaphore and one status per
worker. -/
structure SemState where
  avail : Nat
  workers : List WStatus
  deriving DecidableEq, Repr

/-- Worker currently holding a semaphore slot (crawl in flight). -/
def isRunning : WStatus → Bool
  | WStatus.running => true
  | _ => false

/-- Number of in-flight crawls. -/
def runningCount (s : SemState) : Nat := s.workers.countP isRunning

/-- The two transitions: `acquire` admits a waiting worker when a slot
is free; `release` retires a running worker (crawl completed or
failed) and frees its slot. -/
inductive SemStep : SemState → SemState → Prop
  | acquire (s : SemState) (i : Nat) (a : Nat)
      (h : s.workers[i]? = some WStatus.waiting) (ha : s.avail = a + 1) :
      SemStep s ⟨a, s.workers.set i WStatus.running⟩
  | release (s : SemState) (i : Nat)
      (h : s.workers[i]? = some WStatus.running) :
      SemStep s ⟨s.avail + 1, s.workers.set i WStatus.done⟩

/-- Initial state of `gather_website_info`: `Semaphore(k)` full, all
`n` workers waiting. -/
def initSemState (k n : Nat) : SemState := ⟨k, List.replicate n WStatus.waiting⟩

/-- States reachable during one batch. -/
inductive SemReachable (k n : Nat) : SemState → Prop
  | init : SemReachable k n (initSemState k n)
  | step (s s' : SemState) (hs : SemReachable k n s) (h : SemStep s s') :
      SemReachable k n s'

/-! Concrete oracles used by counterexamples and witnesses. -/

/-- An extract function mapping every URL to domain `x`, suffix `com`. -/
def tldxX : TldFn := fun _ => ("x", "com")

/-- Oracle for C4: the first attempt on the landing page returns HTTP
500; any retry would return HTTP 200 with an email. -/
def netC4 : Net := fun u a =>
  if u == "http://x.com" && a == 0 then
    FetchOutcome.response 500 ["sales@x.com"] []
  else FetchOutcome.response 200 ["sales@x.com"] []

/-- A network that always raises (timeout / connection error). -/
def netDown : Net := fun _ _ => FetchOutcome.failure

/-- Oracles for the C2 example page: `http://shop.com` serves a page
whose text contains `info@shop.com` and `sales@shop.com` and a link to
`https://facebook.com/shop`. -/
def tldxS : TldFn := fun _ => ("shop", "com")

def netS : Net := fun u _ =>
  if u == "http://shop.com" then
    FetchOutcome.response 200 ["info@shop.com", "sales@shop.com"]
      [{ text := "FB", href := "https://facebook.com/shop" }]
  else FetchOutcome.failure

/-! ## Follow-link selection (C8) -/

/-- Oracle for the C8 counterexample: the landing page carries an
anchor whose text says `Contact` and whose (absolute) href contains
`contact`; every other URL answers 404. -/
def netC8 : Net := fun u _ =>
  if u == "http://x.com" then
    FetchOutcome.response 200 []
      [{ text := "Contact", href := "https://x.com/contact-page" }]
  else FetchOutcome.response 404 [] []

/-- Oracle for the C8 witness: the landing page carries one
root-relative contact link. -/
def netC8w : Net := fun u _ =>
  if u == "http://x.com" then
    FetchOutcome.response 200 [] [{ text := "", href := "/contact" }]
  else FetchOutcome.response 404 [] []

/-- A concrete reachable mid-batch state: limit 2, three workers, one
admitted. -/
def semS1 : SemState :=
  ⟨1, [WStatus.running, WStatus.waiting, WStatus.waiting]⟩


/-! ## Theorems -/

/-- Replacing a non-hit head by a hit raises a `countP` by one. -/
theorem countP_head_flip (p : Option String → Bool) (a b : Option String)
    (l : List (Option String)) (ha : p a = false) (hb : p b = true) :
    List.countP p (b :: l) = List.countP p (a :: l) + 1 := by
  rw [List.countP_cons, List.countP_cons, ha, hb]
  simp

/-- Accumulating +1 over a list is the base plus the count of hits. -/
theorem foldl_count_social (l : List (Option String)) (b : Nat) :
    l.foldl (fun s v => if socialVal v then s + 1 else s) b
      = b + l.countP (socialVal ·) := by
  induction l generalizing b with
  | nil => simp
  | cons a l ih =>
      simp only [List.foldl_cons, List.countP_cons, ih]
      by_cases h : socialVal a <;> simp [h] <;> omega

/-- Closed form of the code's scorer. -/
theorem score_eq (row : Row) :
    score_lead_from_row row = emailPoints row.emails + socialCount row := by
  simpa [score_lead_from_row, socialCount] using
    foldl_count_social (socialFields row) (emailPoints row.emails)

/-- C1 (counterexample): the claim says the lead score is the sum of +3
per non-generic email, +1 per generic email, +1 per social link and +2
for a website.  On `c1row` (one non-generic email, a website, no
socials) that sum is 5, but `score_lead_from_row` returns 2, so the
claim is false on the code. -/
theorem C1_counterexample :
    score_lead_from_row c1row = 2 ∧ specScore c1row = 5 ∧
    score_lead_from_row c1row ≠ specScore c1row := by decide

/-- C1 (amended): the lead score equals a flat +2 whenever any email
value is present (regardless of how many emails or whether they are
generic) plus +1 per populated social platform; no website bonus.
Consequently adding a first email increases the score by exactly 2 and
adding a social link by exactly 1, additively and order-independently
(the score is the stated sum). -/
theorem C1_score_additivity (row : Row) :
    score_lead_from_row row = emailPoints row.emails + socialCount row ∧
    (emailPoints row.emails = 0 →
      score_lead_from_row { row with emails := EmailsField.list ["sales@shop.com"] }
        = score_lead_from_row row + 2) ∧
    (socialVal row.facebook = false →
      score_lead_from_row { row with facebook := some "https://facebook.com/x" }
        = score_lead_from_row row + 1) := by
  refine ⟨score_eq row, fun h0 => ?_, fun hf => ?_⟩
  · rw [score_eq, score_eq]
    have h2 : ({ row with emails := EmailsField.list ["sales@shop.com"] } : Row).emails
        = EmailsField.list ["sales@shop.com"] := rfl
    have h3 : socialCount { row with emails := EmailsField.list ["sales@shop.com"] }
        = socialCount row := rfl
    have h4 : emailPoints (EmailsField.list ["sales@shop.com"]) = 2 := rfl
    rw [h2, h3, h4, h0]
    omega
  · rw [score_eq, score_eq]
    have hv : socialVal (some "https://facebook.com/x") = true := rfl
    have h5 : socialCount { row with facebook := some "https://facebook.com/x" }
        = socialCount row + 1 :=
      countP_head_flip (socialVal ·) row.facebook (some "https://facebook.com/x")
        [row.instagram, row.linkedin, row.twitter, row.tiktok, row.youtube] hf hv
    have h6 : ({ row with facebook := some "https://facebook.com/x" } : Row).emails
        = row.emails := rfl
    rw [h5, h6]
    omega

theorem C1_score_additivity_witness :
    score_lead_from_row { row0 with emails := EmailsField.list ["sales@shop.com"] }
      = score_lead_from_row row0 + 2 ∧
    score_lead_from_row { row0 with facebook := some "https://facebook.com/x" }
      = score_lead_from_row row0 + 1 :=
  ⟨(C1_score_additivity row0).2.1 (by decide),
   (C1_score_additivity row0).2.2 (by decide)⟩

/-- C9: for every row the score is between 0 and 8 (it is a `Nat`):
email contribution is a flat +2 whenever any email value is present,
the six social platforms contribute at most +6, and the score ignores
the website cell entirely (no website-presence bonus). -/
theorem C9_score_range (row : Row) :
    score_lead_from_row row ≤ 8 ∧
    (emailsPresent row.emails = true →
      score_lead_from_row row = 2 + socialCount row) ∧
    (∀ w, score_lead_from_row { row with website := w }
        = score_lead_from_row row) := by
  refine ⟨?_, fun hp => ?_, fun w => ?_⟩
  · rw [score_eq]
    have h1 : emailPoints row.emails ≤ 2 := by
      cases h : row.emails <;> simp [emailPoints] <;> split <;> omega
    have h2 : socialCount row ≤ 6 := by
      have := List.countP_le_length (l := socialFields row) (p := (socialVal ·))
      simpa [socialFields] using this
    omega
  · rw [score_eq]
    have : emailPoints row.emails = 2 := by
      cases h : row.emails <;> simp_all [emailPoints, emailsPresent]
    omega
  · rw [score_eq, score_eq]
    rfl

theorem C9_score_range_witness :
    emailsPresent row9.emails = true ∧
    score_lead_from_row row9 = 2 + socialCount row9 :=
  ⟨by decide, (C9_score_range row9).2.1 (by decide)⟩

/-! Auxiliary facts about the scan `dedupLoop`. -/

/-- The `no_domain_rows` list is exactly the domain-less rows in order. -/
theorem dedupLoop_noDomain (tldx : TldFn) (seen : List String)
    (l : List LeadRow) :
    (dedupLoop tldx seen l).2 = l.filter (noDomain tldx) := by
  induction l generalizing seen with
  | nil => simp [dedupLoop]
  | cons r rest ih =>
      simp only [dedupLoop]
      cases h : domain_of tldx r.website with
      | some d =>
          have hr : noDomain tldx r = false := by simp [noDomain, h]
          by_cases hm : d ∈ seen <;> simp [hm, List.filter_cons, hr, ih]
      | none =>
          have hr : noDomain tldx r = true := by simp [noDomain, h]
          simp [List.filter_cons, hr, ih]

/-- Every row of the `keep_rows` list has a domain. -/
theorem dedupLoop_keep_hasDomain (tldx : TldFn) (seen : List String)
    (l : List LeadRow) :
    (dedupLoop tldx seen l).1.filter (noDomain tldx) = [] := by
  induction l generalizing seen with
  | nil => simp [dedupLoop]
  | cons r rest ih =>
      simp only [dedupLoop]
      cases h : domain_of tldx r.website with
      | some d =>
          have hr : noDomain tldx r = false := by simp [noDomain, h]
          by_cases hm : d ∈ seen <;> simp [hm, List.filter_cons, hr, ih]
      | none => simp [ih]

/-- The `keep_rows` rows of domain `d` are: none when `d` was already
seen, else exactly the first row of domain `d` in the scanned list. -/
theorem dedupLoop_keep_filter (tldx : TldFn) (l : List LeadRow) :
    ∀ (seen : List String) (d : String),
      (d ∈ seen → (dedupLoop tldx seen l).1.filter (hasDomain tldx d) = []) ∧
      (d ∉ seen → (dedupLoop tldx seen l).1.filter (hasDomain tldx d)
          = ((l.filter (hasDomain tldx d)).head?).toList) := by
  induction l with
  | nil => intro seen d; simp [dedupLoop]
  | cons r rest ih =>
      intro seen d
      cases h : domain_of tldx r.website with
      | some d' =>
          by_cases hm : d' ∈ seen
          · -- row skipped entirely
            by_cases hdd : d = d'
            · subst hdd
              have hr : hasDomain tldx d r = true := by simp [hasDomain, h]
              refine ⟨fun _ => ?_, fun hns => absurd hm hns⟩
              simp only [dedupLoop, h, if_pos hm]
              exact (ih seen d).1 hm
            · have hr : hasDomain tldx d r = false := by
                simp [hasDomain, h, Ne.symm hdd]
              constructor
              · intro hs
                simp only [dedupLoop, h, if_pos hm]
                exact (ih seen d).1 hs
              · intro hns
                simp only [dedupLoop, h, if_pos hm]
                rw [(ih seen d).2 hns, List.filter_cons, hr]
                simp
          · -- row kept, d' added to seen
            by_cases hdd : d = d'
            · subst hdd
              have hr : hasDomain tldx d r = true := by simp [hasDomain, h]
              refine ⟨fun hs => absurd hs hm, fun _ => ?_⟩
              simp only [dedupLoop, h, if_neg hm]
              rw [List.filter_cons, hr]
              have : (dedupLoop tldx (d :: seen) rest).1.filter (hasDomain tldx d)
                  = [] := (ih (d :: seen) d).1 (List.mem_cons_self d seen)
              simp [this, List.filter_cons, hr]
            · have hr : hasDomain tldx d r = false := by
                simp [hasDomain, h, Ne.symm hdd]
              have hseen : (d ∈ d' :: seen) ↔ d ∈ seen := by
                simp [List.mem_cons, hdd]
              constructor
              · intro hs
                simp only [dedupLoop, h, if_neg hm]
                rw [List.filter_cons, hr]
                exact (ih (d' :: seen) d).1 (hseen.mpr hs)
              · intro hns
                simp only [dedupLoop, h, if_neg hm]
                rw [List.filter_cons, hr]
                rw [(ih (d' :: seen) d).2 (fun hc => hns (hseen.mp hc))]
                rw [List.filter_cons, hr]
                simp
      | none =>
          have hr : hasDomain tldx d r = false := by simp [hasDomain, h]
          constructor
          · intro hs
            simp only [dedupLoop, h]
            exact (ih seen d).1 hs
          · intro hns
            simp only [dedupLoop, h]
            rw [(ih seen d).2 hns, List.filter_cons, hr]
            simp

/-! Auxiliary facts about the stable sort. -/

/-- Unfolding of `maxScoreOf` on a cons. -/
theorem maxScoreOf_cons (x : LeadRow) (xs : List LeadRow) :
    maxScoreOf (x :: xs) = max x.score (maxScoreOf xs) := rfl

/-- Every row's score is bounded by its group's maximum. -/
theorem le_maxScoreOf (g : List LeadRow) : ∀ r ∈ g, r.score ≤ maxScoreOf g := by
  induction g with
  | nil => simp
  | cons x xs ih =>
      intro r hr
      rw [maxScoreOf_cons]
      rcases List.mem_cons.mp hr with h | h
      · subst h; exact Nat.le_max_left _ _
      · exact Nat.le_trans (ih r h) (Nat.le_max_right _ _)

/-- A nonempty group contains a row attaining the maximum score. -/
theorem maxScoreOf_mem (g : List LeadRow) (hg : g ≠ []) :
    ∃ r ∈ g, r.score = maxScoreOf g := by
  induction g with
  | nil => exact absurd rfl hg
  | cons x xs ih =>
      by_cases hxs : xs = []
      · subst hxs
        exact ⟨x, List.mem_cons_self x [], by simp [maxScoreOf]⟩
      · obtain ⟨r, hr, hre⟩ := ih hxs
        rcases Nat.le_total (maxScoreOf xs) x.score with h | h
        · exact ⟨x, List.mem_cons_self x xs,
            by rw [maxScoreOf_cons]; exact (Nat.max_eq_left h).symm⟩
        · exact ⟨r, List.mem_cons_of_mem x hr,
            by rw [maxScoreOf_cons, Nat.max_eq_right h, hre]⟩

/-- Unfolding of `deduplicate_by_domain`. -/
theorem deduplicate_by_domain_eq (sortImpl : List LeadRow → List LeadRow)
    (tldx : TldFn) (rows : List LeadRow) :
    deduplicate_by_domain sortImpl tldx rows
      = (dedupLoop tldx [] (sortImpl rows)).1
        ++ (dedupLoop tldx [] (sortImpl rows)).2 := rfl

/-- A row never satisfies `hasDomain d` and `noDomain` at once. -/
theorem hasDomain_noDomain (tldx : TldFn) (d : String) (r : LeadRow) :
    ¬ (hasDomain tldx d r = true ∧ noDomain tldx r = true) := by
  cases h : domain_of tldx r.website <;> simp [hasDomain, noDomain, h]

/-- The stable descending sort meets the `sort_values` contract. -/
theorem stableSort_conforms : sortValuesSpec stableSortImpl :=
  fun rows => ⟨List.perm_insertionSort leadLE rows,
               List.sorted_insertionSort leadLE rows⟩

/-- `badSort` also meets everything the `sort_values` contract
promises: each output is a score-descending permutation of the
input. -/
theorem badSort_conforms : sortValuesSpec badSort := by
  intro rows
  by_cases h : rows = rowsT
  · subst h
    have he : badSort rowsT = [rowT1, rowT0] := by
      rw [badSort.eq_1, if_pos rfl]
    rw [he]
    constructor
    · exact List.Perm.swap rowT0 rowT1 []
    · exact List.Pairwise.cons
        (fun b hb => by
          rw [List.mem_singleton.mp hb]
          exact Nat.le_refl 5)
        (List.Pairwise.cons (fun b hb => absurd hb (List.not_mem_nil b))
          List.Pairwise.nil)
  · have he : badSort rows = rows.insertionSort leadLE := by
      rw [badSort.eq_1, if_neg h]
    rw [he]
    exact ⟨List.perm_insertionSort leadLE rows,
           List.sorted_insertionSort leadLE rows⟩

/-- C3 (counterexample): the claimed earliest-position tie-break is
not guaranteed by the program.  `badSort` satisfies everything
`sort_values` with the default unstable `kind='quicksort'` promises,
yet deduplicating `rowsT` — two rows of the same domain with equal
score 5 — keeps `rowT1`, the SECOND row of the input, while the claim
demands `claimedKeeper`, the earliest-position row `rowT0`. -/
theorem C3_counterexample :
    sortValuesSpec badSort ∧
    (deduplicate_by_domain badSort tldxW rowsT).filter
        (hasDomain tldxW "example.com") = [rowT1] ∧
    claimedKeeper tldxW "example.com" rowsT = some rowT0 ∧
    rowT1 ≠ rowT0 :=
  ⟨badSort_conforms, by decide, by decide, by decide⟩

/-- C3 (amended): for every sort implementation satisfying the
documented `sort_values` contract (a score-descending permutation of
the input; the relative order of equal scores is unspecified under the
default unstable `kind='quicksort'`), deduplication keeps exactly one
lead per registrable domain — a lead of maximal `lead_score` within
the domain group, though not necessarily the earliest-positioned among
tied maxima — and every lead with no website or an unparseable domain
is retained unconditionally. -/
theorem C3_dedupe (sortImpl : List LeadRow → List LeadRow)
    (hsort : sortValuesSpec sortImpl) (tldx : TldFn)
    (rows : List LeadRow) (d : String) :
    ((∃ r ∈ rows, hasDomain tldx d r = true) →
      ∃ r, (deduplicate_by_domain sortImpl tldx rows).filter
              (hasDomain tldx d) = [r]
        ∧ r ∈ rows ∧ hasDomain tldx d r = true
        ∧ r.score = maxScoreOf (rows.filter (hasDomain tldx d))) ∧
    ((deduplicate_by_domain sortImpl tldx rows).filter (noDomain tldx)).Perm
        (rows.filter (noDomain tldx)) := by
  obtain ⟨hperm, hsorted⟩ := hsort rows
  constructor
  · rintro ⟨r0, hr0, hd0⟩
    have hkeep : (deduplicate_by_domain sortImpl tldx rows).filter
        (hasDomain tldx d)
        = (((sortImpl rows).filter (hasDomain tldx d)).head?).toList := by
      rw [deduplicate_by_domain_eq, List.filter_append]
      have h2 : (dedupLoop tldx [] (sortImpl rows)).2.filter
          (hasDomain tldx d) = [] := by
        rw [dedupLoop_noDomain, List.filter_filter]
        refine List.filter_eq_nil_iff.mpr ?_
        intro a _ hc
        simp only [Bool.and_eq_true] at hc
        exact hasDomain_noDomain tldx d a hc
      rw [h2, List.append_nil]
      exact (dedupLoop_keep_filter tldx (sortImpl rows) [] d).2
        (List.not_mem_nil d)
    have hmem0 : r0 ∈ (sortImpl rows).filter (hasDomain tldx d) :=
      List.mem_filter.mpr ⟨hperm.mem_iff.mpr hr0, hd0⟩
    cases hfs : (sortImpl rows).filter (hasDomain tldx d) with
    | nil =>
        rw [hfs] at hmem0
        exact absurd hmem0 (List.not_mem_nil r0)
    | cons r t =>
        have hrmem : r ∈ (sortImpl rows).filter (hasDomain tldx d) := by
          rw [hfs]
          exact List.mem_cons_self r t
        have hrrows : r ∈ rows :=
          hperm.mem_iff.mp (List.mem_filter.mp hrmem).1
        have hrdom : hasDomain tldx d r = true :=
          (List.mem_filter.mp hrmem).2
        refine ⟨r, ?_, hrrows, hrdom, ?_⟩
        · rw [hkeep, hfs]
          rfl
        · apply Nat.le_antisymm
          · exact le_maxScoreOf (rows.filter (hasDomain tldx d)) r
              (List.mem_filter.mpr ⟨hrrows, hrdom⟩)
          · obtain ⟨m, hm, hme⟩ :=
              maxScoreOf_mem (rows.filter (hasDomain tldx d))
                (List.ne_nil_of_mem (List.mem_filter.mpr ⟨hr0, hd0⟩))
            have hms : m ∈ r :: t := by
              rw [← hfs]
              obtain ⟨hm1, hm2⟩ := List.mem_filter.mp hm
              exact List.mem_filter.mpr ⟨hperm.mem_iff.mpr hm1, hm2⟩
            have hsf : ((sortImpl rows).filter (hasDomain tldx d)).Sorted
                leadLE := hsorted.filter (hasDomain tldx d)
            rw [hfs] at hsf
            rcases List.mem_cons.mp hms with h' | h'
            · rw [← hme, h']
            · rw [← hme]
              exact List.rel_of_sorted_cons hsf m h'
  · rw [deduplicate_by_domain_eq, List.filter_append]
    rw [dedupLoop_keep_hasDomain, List.nil_append]
    rw [dedupLoop_noDomain, List.filter_filter]
    have heq : (sortImpl rows).filter
          (fun a => noDomain tldx a && noDomain tldx a)
        = (sortImpl rows).filter (noDomain tldx) := by
      apply List.filter_congr
      intro a _
      rw [Bool.and_self]
    rw [heq]
    exact hperm.filter (noDomain tldx)

theorem C3_dedupe_witness :
    maxScoreOf (rowsW.filter (hasDomain tldxW "example.com")) = 7 ∧
    ((deduplicate_by_domain stableSortImpl tldxW rowsW).filter
        (noDomain tldxW)).Perm (rowsW.filter (noDomain tldxW)) := by
  have h := C3_dedupe stableSortImpl stableSort_conforms tldxW rowsW
    "example.com"
  obtain ⟨r, hr, -, -, hscore⟩ := h.1 (by decide)
  have hconc : (deduplicate_by_domain stableSortImpl tldxW rowsW).filter
      (hasDomain tldxW "example.com") = [rowW1] := by decide
  rw [hconc] at hr
  have hre : r = rowW1 := by simpa using hr.symm
  refine ⟨?_, h.2⟩
  rw [← hscore, hre]
  rfl

/-! ## Cache idempotence: second crawl of a URL (C6, C10) -/

/-- Re-crawling a URL right after any crawl returns the same result and
cache with no network access: the absent-URL path touches nothing, and
both the hit and miss paths leave the entry the hit path returns. -/
theorem fetch_rerun (tldx tldx2 : TldFn) (net net2 : Net) (fuel fuel2 : Nat)
    (cache : Cache) (url : Option String) :
    fetch_page_emails_and_social tldx2 net2 fuel2
        (fetch_page_emails_and_social tldx net fuel cache url).2.1 url
      = ((fetch_page_emails_and_social tldx net fuel cache url).1,
         (fetch_page_emails_and_social tldx net fuel cache url).2.1, []) := by
  cases url with
  | none => rfl
  | some u =>
      by_cases hu : (u == "" || u == "N/A") = true
      · simp [fetch_page_emails_and_social, hu]
      · cases hc : cacheGet cache u with
        | some r => simp [fetch_page_emails_and_social, hu, hc]
        | none =>
            have hget : ∀ r : CrawlResult, cacheGet (cachePut cache u r) u = some r := by
              intro r
              simp [cacheGet, cachePut, List.find?]
            simp [fetch_page_emails_and_social, hu, hc, hget]

/-- C6: crawling the same URL a second time with the Crawl Cache entry
left by the first call returns the identical result, leaves the cache
unchanged, and performs no network access (empty access log), whatever
the network, extract function or fuel of the second call. -/
theorem C6_cache_idempotent (tldx tldx2 : TldFn) (net net2 : Net)
    (fuel fuel2 : Nat) (cache : Cache) (url : Option String) :
    fetch_page_emails_and_social tldx2 net2 fuel2
        (fetch_page_emails_and_social tldx net fuel cache url).2.1 url
      = ((fetch_page_emails_and_social tldx net fuel cache url).1,
         (fetch_page_emails_and_social tldx net fuel cache url).2.1, []) :=
  fetch_rerun tldx tldx2 net net2 fuel fuel2 cache url

/-- C10: a crawl of a non-absent, uncached URL always writes its
(possibly empty) result to the cache, and every subsequent crawl of
that URL returns exactly that stored result with no network access —
the site is never retried. -/
theorem C10_failure_cached (tldx : TldFn) (net : Net) (fuel : Nat)
    (cache : Cache) (u : String)
    (h1 : ¬ (u == "" || u == "N/A") = true)
    (h2 : cacheGet cache u = none) :
    (fetch_page_emails_and_social tldx net fuel cache (some u)).2.1
        = cachePut cache u
            (fetch_page_emails_and_social tldx net fuel cache (some u)).1 ∧
    cacheGet (fetch_page_emails_and_social tldx net fuel cache (some u)).2.1 u
        = some (fetch_page_emails_and_social tldx net fuel cache (some u)).1 ∧
    ∀ (tldx2 : TldFn) (net2 : Net) (fuel2 : Nat),
      fetch_page_emails_and_social tldx2 net2 fuel2
          (fetch_page_emails_and_social tldx net fuel cache (some u)).2.1 (some u)
        = ((fetch_page_emails_and_social tldx net fuel cache (some u)).1,
           (fetch_page_emails_and_social tldx net fuel cache (some u)).2.1, []) := by
  have hstep : (fetch_page_emails_and_social tldx net fuel cache (some u)).2.1
      = cachePut cache u
          (fetch_page_emails_and_social tldx net fuel cache (some u)).1 := by
    simp [fetch_page_emails_and_social, h1, h2]
  refine ⟨hstep, ?_, fun tldx2 net2 fuel2 =>
    fetch_rerun tldx tldx2 net net2 fuel fuel2 cache (some u)⟩
  rw [hstep]
  simp [cacheGet, cachePut, List.find?]

theorem C10_failure_cached_witness :
    (fetch_page_emails_and_social tldxX netDown 3 [] (some "http://x.com")).2.1
        = cachePut [] "http://x.com"
            (fetch_page_emails_and_social tldxX netDown 3 [] (some "http://x.com")).1 ∧
    fetch_page_emails_and_social tldxX netC4 7
        (fetch_page_emails_and_social tldxX netDown 3 [] (some "http://x.com")).2.1
        (some "http://x.com")
      = ((fetch_page_emails_and_social tldxX netDown 3 [] (some "http://x.com")).1,
         (fetch_page_emails_and_social tldxX netDown 3 [] (some "http://x.com")).2.1,
         []) :=
  ⟨(C10_failure_cached tldxX netDown 3 [] "http://x.com" (by decide) (by decide)).1,
   (C10_failure_cached tldxX netDown 3 [] "http://x.com" (by decide)
      (by decide)).2.2 tldxX netC4 7⟩

/-! ## Batch enrichment completeness (C5) -/

/-- The result list of `gather_website_info` carries the input URLs in
order as its keys. -/
theorem gather_keys (tldx : TldFn) (net : Net) (fuel : Nat) :
    ∀ (websites : List String) (cache : Cache),
      (gather_website_info tldx net fuel cache websites).map Prod.fst
        = websites := by
  intro websites
  induction websites with
  | nil => intro cache; rfl
  | cons w ws ih => intro cache; simp [gather_website_info, ih]

/-- URLs outside the batch have no entry. -/
theorem gather_filter_not_mem (tldx : TldFn) (net : Net) (fuel : Nat)
    (w : String) :
    ∀ (websites : List String) (cache : Cache), w ∉ websites →
      (gather_website_info tldx net fuel cache websites).filter (keyIs w)
        = [] := by
  intro websites
  induction websites with
  | nil => intro cache _; rfl
  | cons v ws ih =>
      intro cache hw
      have hv : (v == w) = false := by
        refine beq_eq_false_iff_ne.mpr fun he => hw ?_
        rw [he]
        exact List.mem_cons_self w ws
      simp [gather_website_info, List.filter_cons, keyIs, hv,
        ih _ (List.not_mem_of_not_mem_cons hw)]

/-- C5: for every (deduplicated) batch of URLs, every network behaviour
and every cache, the batch call produces exactly one entry per input
URL — in particular a failing site never removes another URL's entry
nor fails the batch. -/
theorem C5_enrich_complete (tldx : TldFn) (net : Net) (fuel : Nat)
    (cache : Cache) (websites : List String) :
    (gather_website_info tldx net fuel cache websites).map Prod.fst
        = websites ∧
    (websites.Nodup → ∀ w ∈ websites,
      ((gather_website_info tldx net fuel cache websites).filter
          (keyIs w)).length = 1) := by
  refine ⟨gather_keys tldx net fuel websites cache, ?_⟩
  induction websites generalizing cache with
  | nil => intro _ w hw; exact absurd hw (List.not_mem_nil w)
  | cons v ws ih =>
      intro hnd w hw
      have hv : v ∉ ws := (List.nodup_cons.mp hnd).1
      have hnd' : ws.Nodup := (List.nodup_cons.mp hnd).2
      rcases List.mem_cons.mp hw with h | h
      · subst h
        simp [gather_website_info, List.filter_cons, keyIs,
          gather_filter_not_mem tldx net fuel w ws _ hv]
      · have hne : (v == w) = false :=
          beq_eq_false_iff_ne.mpr fun he => hv (he ▸ h)
        simp only [gather_website_info, List.filter_cons, keyIs, hne]
        rw [if_neg (by simp)]
        exact ih _ hnd' w h

/-! ## Retry behaviour and soft failure (C4) -/

/-- The queue loop does nothing on an empty queue. -/
theorem crawlLoop_nil (tldx : TldFn) (net : Net) (b : String) (fuel : Nat)
    (all emails : List String) (social : Social)
    (log : List (String × Nat)) :
    crawlLoop tldx net b fuel [] all emails social log
      = (emails, social, log) := by
  cases fuel <;> rfl

/-- When every outcome for `u` is an exception or a non-200 status, the
retry loop yields no body and makes at most `rem` accesses, all to
`u`. -/
theorem tryFetch_failed (net : Net) (u : String)
    (h : ∀ a, failedOutcome (net u a) = true) :
    ∀ (rem attempt : Nat),
      (tryFetch net u attempt rem).1 = none ∧
      (tryFetch net u attempt rem).2.length ≤ rem ∧
      ∀ e ∈ (tryFetch net u attempt rem).2, e.1 = u := by
  intro rem
  induction rem with
  | zero =>
      intro attempt
      exact ⟨rfl, by simp [tryFetch], by simp [tryFetch]⟩
  | succ rem ih =>
      intro attempt
      cases hnet : net u attempt with
      | failure =>
          obtain ⟨ih1, ih2, ih3⟩ := ih (attempt + 1)
          have heq : tryFetch net u attempt (rem + 1)
              = ((tryFetch net u (attempt + 1) rem).1,
                 (u, attempt) :: (tryFetch net u (attempt + 1) rem).2) := by
            simp [tryFetch, hnet]
          rw [heq]
          refine ⟨ih1, Nat.succ_le_succ ih2, ?_⟩
          intro e he
          rcases List.mem_cons.mp he with h' | h'
          · rw [h']
          · exact ih3 e h'
      | response s es ans =>
          have hs : (s == 200) = false := by
            have h' := h attempt
            rw [hnet] at h'
            simp only [failedOutcome, bne] at h'
            cases hse : s == 200
            · rfl
            · rw [hse] at h'
              exact absurd h' (by simp)
          have heq : tryFetch net u attempt (rem + 1)
              = (none, [(u, attempt)]) := by
            simp [tryFetch, hnet, hs]
          rw [heq]
          refine ⟨rfl, by simp, ?_⟩
          intro e he
          rcases List.mem_cons.mp he with h' | h'
          · rw [h']
          · exact absurd h' (List.not_mem_nil e)

/-- C4 (counterexample): the claim says a non-success HTTP status is
retried up to 2-3 times.  Under `netC4` the first attempt returns
HTTP 500 and any second attempt would return HTTP 200 with an email,
yet the crawl performs exactly one network access (log
`[("http://x.com", 0)]`) and returns the empty result: the `break` on
a non-200 status skips all retries. -/
theorem C4_counterexample :
    fetch_page_emails_and_social tldxX netC4 5 [] (some "http://x.com")
      = (emptyCrawlResult, cachePut [] "http://x.com" emptyCrawlResult,
         [("http://x.com", 0)]) := by decide

/-- C4 (amended): the crawl never escalates a network failure: an
exception (timeout) is retried, for 2 attempts in total with a 0.5 s
backoff, while a non-success status makes the crawl give up on the
page immediately WITHOUT retrying; when every attempt on the landing
page fails the crawl returns the empty `CrawlResult`, caches it, and
has made at most 2 network accesses, all to the requested URL. -/
theorem C4_soft_failure (tldx : TldFn) (net : Net) (fuel : Nat)
    (cache : Cache) (u : String)
    (h1 : ¬ (u == "" || u == "N/A") = true)
    (h2 : cacheGet cache u = none)
    (hf : ∀ a, failedOutcome (net u a) = true) :
    (fetch_page_emails_and_social tldx net fuel cache (some u)).1
        = emptyCrawlResult ∧
    (fetch_page_emails_and_social tldx net fuel cache (some u)).2.1
        = cachePut cache u emptyCrawlResult ∧
    (fetch_page_emails_and_social tldx net fuel cache (some u)).2.2.length ≤ 2 ∧
    ∀ e ∈ (fetch_page_emails_and_social tldx net fuel cache (some u)).2.2,
      e.1 = u := by
  obtain ⟨t1, t2, t3⟩ := tryFetch_failed net u hf 2 0
  have hcrawl : crawlLoop tldx net u fuel [u] [u] [] initSocial []
      = ([], initSocial,
         if fuel = 0 then [] else (tryFetch net u 0 2).2) := by
    cases fuel with
    | zero => rfl
    | succ f =>
        rw [if_neg (Nat.succ_ne_zero f)]
        cases hT2 : tryFetch net u 0 2 with
        | mk o plog =>
            have ho : o = none := by rw [hT2] at t1; exact t1
            subst ho
            simp only [crawlLoop, hT2]
            rw [List.nil_append, crawlLoop_nil]
  have hfetch : fetch_page_emails_and_social tldx net fuel cache (some u)
      = (emptyCrawlResult, cachePut cache u emptyCrawlResult,
         if fuel = 0 then [] else (tryFetch net u 0 2).2) := by
    simp [fetch_page_emails_and_social, h1, h2, hcrawl, emptyCrawlResult,
      sortStrings]
  rw [hfetch]
  refine ⟨rfl, rfl, ?_, ?_⟩
  · by_cases h0 : fuel = 0
    · simp [h0]
    · simpa [h0] using t2
  · intro e he
    by_cases h0 : fuel = 0
    · rw [if_pos h0] at he
      exact absurd he (List.not_mem_nil e)
    · rw [if_neg h0] at he
      exact t3 e he

theorem C4_soft_failure_witness :
    (fetch_page_emails_and_social tldxX netDown 3 [] (some "http://down.com")).1
        = emptyCrawlResult ∧
    (fetch_page_emails_and_social tldxX netDown 3 []
        (some "http://down.com")).2.2.length ≤ 2 :=
  ⟨(C4_soft_failure tldxX netDown 3 [] "http://down.com" (by decide) (by decide)
      (fun _ => rfl)).1,
   (C4_soft_failure tldxX netDown 3 [] "http://down.com" (by decide) (by decide)
      (fun _ => rfl)).2.2.1⟩

/-! ## Generic-email filtering (C2) -/

theorem mem_insertStr (m a : String) (l : List String) :
    m ∈ insertStr a l ↔ m = a ∨ m ∈ l := by
  induction l with
  | nil => simp [insertStr]
  | cons b t ih =>
      simp only [insertStr]
      by_cases h : charListLe a.data b.data
      · simp [h]
      · rw [if_neg (by simpa using h)]
        simp only [List.mem_cons, ih]
        tauto

theorem mem_sortStrings (m : String) (l : List String) :
    m ∈ sortStrings l ↔ m ∈ l := by
  induction l with
  | nil => exact Iff.rfl
  | cons a t ih => simp [sortStrings, mem_insertStr, ih]

theorem mem_insertEmail (x m : String) (acc : List String) :
    x ∈ insertEmail acc m → x ∈ acc ∨ x = m := by
  intro h
  by_cases hm : m ∈ acc
  · rw [insertEmail, if_pos hm] at h
    exact Or.inl h
  · rw [insertEmail, if_neg hm] at h
    simpa using h

/-- Lemma: `addEmails` preserves freedom from generic prefixes: the guard
discards every generic match. -/
theorem addEmails_generic (found : List String) :
    ∀ acc, (∀ m ∈ acc, genericPrefixed m = false) →
      ∀ m ∈ addEmails acc found, genericPrefixed m = false := by
  induction found with
  | nil => intro acc h m hm; exact h m hm
  | cons f fs ih =>
      intro acc h
      rw [show addEmails acc (f :: fs)
          = addEmails (if genericPrefixed f then acc else insertEmail acc f) fs
          from rfl]
      apply ih
      by_cases hg : genericPrefixed f
      · rw [if_pos hg]; exact h
      · rw [if_neg hg]
        intro m hm
        rcases mem_insertEmail m f acc hm with h' | h'
        · exact h m h'
        · rw [h']
          exact Bool.eq_false_iff.mpr hg

/-- The email accumulator of the page loop stays generic-free. -/
theorem crawlLoop_emails_generic (tldx : TldFn) (net : Net) (b : String) :
    ∀ (fuel : Nat) (pending all emails : List String) (social : Social)
      (log : List (String × Nat)),
      (∀ m ∈ emails, genericPrefixed m = false) →
      ∀ m ∈ (crawlLoop tldx net b fuel pending all emails social log).1,
        genericPrefixed m = false := by
  intro fuel
  induction fuel with
  | zero => intro pending all emails social log h m hm; exact h m hm
  | succ f ih =>
      intro pending all emails social log h m hm
      cases pending with
      | nil => exact h m hm
      | cons u rest =>
          cases hT : tryFetch net u 0 2 with
          | mk o plog =>
              cases o with
              | none =>
                  rw [show crawlLoop tldx net b (f + 1) (u :: rest) all emails
                        social log
                      = crawlLoop tldx net b f rest all emails social
                        (log ++ plog) from by simp only [crawlLoop, hT]] at hm
                  exact ih rest all emails social (log ++ plog) h m hm
              | some body =>
                  obtain ⟨es, ans⟩ := body
                  rw [show crawlLoop tldx net b (f + 1) (u :: rest) all emails
                        social log
                      = crawlLoop tldx net b f
                          (rest ++ (anchorsFold tldx b ans social all).2.2)
                          (anchorsFold tldx b ans social all).2.1
                          (addEmails emails es)
                          (anchorsFold tldx b ans social all).1
                          (log ++ plog) from by simp only [crawlLoop, hT]] at hm
                  exact ih _ _ _ _ _ (addEmails_generic es emails h) m hm

/-- C2 (counterexample): the claim says generic-role addresses are
retained, and that the example page yields BOTH `info@shop.com` and
`sales@shop.com`.  The crawl of that page returns only
`sales@shop.com` — `info@shop.com` is discarded by the prefix filter —
while the facebook link is extracted as the claim says. -/
theorem C2_counterexample :
    (fetch_page_emails_and_social tldxS netS 5 [] (some "http://shop.com")).1.emails
        = ["sales@shop.com"] ∧
    "info@shop.com" ∉
      (fetch_page_emails_and_social tldxS netS 5 [] (some "http://shop.com")).1.emails ∧
    (fetch_page_emails_and_social tldxS netS 5 []
        (some "http://shop.com")).1.social.facebook = "https://facebook.com/shop" := by
  decide

/-- C2 (amended): generic-role addresses (lower-cased address starting
with `info@`, `noreply@`, `no-reply@`, `admin@`, `support@` or
`contact@`) are DISCARDED at extraction, not retained: provided every
cached entry is generic-free, every email of a crawl's result is
non-generic; in the example scenario only `sales@shop.com` survives. -/
theorem C2_generic_discarded (tldx : TldFn) (net : Net) (fuel : Nat)
    (cache : Cache) (url : Option String)
    (hc : ∀ e ∈ cache, ∀ m ∈ e.2.emails, genericPrefixed m = false) :
    ∀ m ∈ (fetch_page_emails_and_social tldx net fuel cache url).1.emails,
      genericPrefixed m = false := by
  cases url with
  | none => intro m hm; exact absurd hm (List.not_mem_nil m)
  | some u =>
      by_cases hu : (u == "" || u == "N/A") = true
      · intro m hm
        rw [show (fetch_page_emails_and_social tldx net fuel cache (some u)).1
            = emptyCrawlResult from by
              simp [fetch_page_emails_and_social, hu]] at hm
        exact absurd hm (List.not_mem_nil m)
      · cases hcg : cacheGet cache u with
        | some r =>
            intro m hm
            rw [show (fetch_page_emails_and_social tldx net fuel cache (some u)).1
                = r from by simp [fetch_page_emails_and_social, hu, hcg]] at hm
            rw [cacheGet] at hcg
            cases hfind : cache.find? (fun e => e.1 == u) with
            | none => rw [hfind] at hcg; exact absurd hcg (by simp)
            | some e =>
                rw [hfind] at hcg
                have he : e ∈ cache := List.mem_of_find?_eq_some hfind
                have hre : r = e.2 := by
                  have := hcg
                  simp at this
                  exact this.symm
                exact hc e he m (hre ▸ hm)
        | none =>
            intro m hm
            rw [show (fetch_page_emails_and_social tldx net fuel cache
                  (some u)).1.emails
                = sortStrings (crawlLoop tldx net u fuel [u] [u] [] initSocial []).1
                from by simp [fetch_page_emails_and_social, hu, hcg]] at hm
            rw [mem_sortStrings] at hm
            exact crawlLoop_emails_generic tldx net u fuel [u] [u] [] initSocial []
              (fun x hx => absurd hx (List.not_mem_nil x)) m hm

theorem C2_generic_discarded_witness :
    genericPrefixed "sales@shop.com" = false :=
  C2_generic_discarded tldxS netS 5 [] (some "http://shop.com")
    (fun e he => absurd he (List.not_mem_nil e)) "sales@shop.com" (by decide)

theorem C5_enrich_complete_witness :
    (["http://a.com", "http://b.com"] : List String).Nodup ∧
    ((gather_website_info tldxX netDown 3 []
        ["http://a.com", "http://b.com"]).filter (keyIs "http://a.com")).length
      = 1 :=
  ⟨by decide,
   (C5_enrich_complete tldxX netDown 3 [] ["http://a.com", "http://b.com"]).2
     (by decide) "http://a.com" (by decide)⟩

/-- C8 (counterexample): the claim says EVERY hyperlink whose text or
path contains `contact`/`about` becomes a follow candidate crawled in
an additional hop.  Under `netC8` the landing page's only anchor says
`Contact` and its href contains `contact`, yet the crawl's network log
shows the landing page alone was fetched: the code only follows hrefs
that start with `/`, and never looks at anchor text. -/
theorem C8_counterexample :
    (fetch_page_emails_and_social tldxX netC8 5 [] (some "http://x.com")).2.2
      = [("http://x.com", 0)] := by decide

/-- The anchor loop appends exactly the `candidateUrls` to
`urls_to_check`, whatever the social state. -/
theorem anchorsFold_spec (tldx : TldFn) (b : String) :
    ∀ (ans : List Anchor) (social : Social) (all : List String),
      (anchorsFold tldx b ans social all).2.2 = candidateUrls tldx b ans all ∧
      (anchorsFold tldx b ans social all).2.1
        = all ++ candidateUrls tldx b ans all := by
  intro ans
  induction ans with
  | nil => intro social all; exact ⟨rfl, (List.append_nil all).symm⟩
  | cons a rest ih =>
      intro social all
      by_cases hf : followHref a.href = true
      · by_cases hm : mkBase tldx b ++ a.href ∈ all
        · simp only [anchorsFold, candidateUrls, hf, if_true, if_pos hm]
          exact ih (updSocial social a.href) all
        · simp only [anchorsFold, candidateUrls, hf, if_true, if_neg hm,
            List.append_nil]
          obtain ⟨ih1, ih2⟩ :=
            ih (updSocial social a.href) (all ++ [mkBase tldx b ++ a.href])
          refine ⟨by simp [ih1], ?_⟩
          simp [ih2]
      · have hff : followHref a.href = false := Bool.eq_false_iff.mpr hf
        simp only [anchorsFold, candidateUrls, hff, Bool.false_eq_true,
          if_false]
        exact ih (updSocial social a.href) all

/-- Newly appended candidates were not in `urls_to_check` before. -/
theorem candidateUrls_not_mem (tldx : TldFn) (b : String) :
    ∀ (ans : List Anchor) (all : List String) (v : String),
      v ∈ candidateUrls tldx b ans all → v ∉ all := by
  intro ans
  induction ans with
  | nil => intro all v hv; exact absurd hv (List.not_mem_nil v)
  | cons a rest ih =>
      intro all v hv
      by_cases hf : followHref a.href = true
      · by_cases hm : mkBase tldx b ++ a.href ∈ all
        · rw [candidateUrls, if_pos hf, if_pos hm] at hv
          exact ih all v hv
        · rw [candidateUrls, if_pos hf, if_neg hm] at hv
          rcases List.mem_cons.mp hv with h' | h'
          · rw [h']; exact hm
          · intro hva
            exact ih (all ++ [mkBase tldx b ++ a.href]) v h'
              (List.mem_append_left _ hva)
      · rw [candidateUrls, if_neg hf] at hv
        exact ih all v hv

/-- A non-200 response consumes exactly one attempt, with no retry. -/
theorem tryFetch_non200 (net : Net) (v : String)
    (h : non200 (net v 0) = true) :
    tryFetch net v 0 2 = (none, [(v, 0)]) := by
  cases hnet : net v 0 with
  | failure => rw [hnet] at h; exact absurd h (by simp [non200])
  | response s es ans =>
      have hs : (s == 200) = false := by
        rw [hnet] at h
        simp only [non200, bne] at h
        cases hse : s == 200
        · rfl
        · rw [hse] at h; exact absurd h (by simp)
      simp [tryFetch, hnet, hs]

/-- Draining a queue of URLs that all answer non-200: one access per
URL in order, no state change. -/
theorem crawlLoop_drain (tldx : TldFn) (net : Net) (b : String) :
    ∀ (pending : List String) (fuel : Nat) (all emails : List String)
      (social : Social) (log : List (String × Nat)),
      (∀ v ∈ pending, non200 (net v 0) = true) →
      pending.length ≤ fuel →
      crawlLoop tldx net b fuel pending all emails social log
        = (emails, social, log ++ pending.map (fun v => (v, 0))) := by
  intro pending
  induction pending with
  | nil =>
      intro fuel all emails social log _ _
      rw [crawlLoop_nil]
      simp
  | cons v rest ih =>
      intro fuel all emails social log hp hlen
      cases fuel with
      | zero => exact absurd hlen (by simp)
      | succ f =>
          have hT := tryFetch_non200 net v (hp v (List.mem_cons_self v rest))
          simp only [crawlLoop, hT]
          rw [ih f all emails social (log ++ [(v, 0)])
            (fun w hw => hp w (List.mem_cons_of_mem v hw))
            (Nat.le_of_succ_le_succ hlen)]
          simp

/-- C8 (amended): of a fetched page's hyperlinks, exactly those whose
HREF (lower-cased; the anchor text is never examined) contains
`contact` or `about` AND starts with `/` are followed for one
additional hop; each candidate is resolved as
`https://` + registrable domain of the ORIGINAL crawl URL + href
(`followCandidates`).  With enough fuel and all other pages answering
non-200, the crawl's fetched URLs are exactly the landing page
followed by those candidates, in order. -/
theorem C8_follow_links (tldx : TldFn) (net : Net) (fuel : Nat)
    (cache : Cache) (u : String) (es : List String) (anchors : List Anchor)
    (h1 : ¬ (u == "" || u == "N/A") = true)
    (h2 : cacheGet cache u = none)
    (h3 : net u 0 = FetchOutcome.response 200 es anchors)
    (h4 : ∀ v, v ≠ u → non200 (net v 0) = true)
    (h5 : 1 + (followCandidates tldx u anchors).length ≤ fuel) :
    (fetch_page_emails_and_social tldx net fuel cache (some u)).2.2.map
        Prod.fst
      = u :: followCandidates tldx u anchors := by
  cases fuel with
  | zero => exact absurd h5 (by simp)
  | succ f =>
      have hT : tryFetch net u 0 2 = (some (es, anchors), [(u, 0)]) := by
        simp [tryFetch, h3]
      have hdrainhyp : ∀ v ∈ followCandidates tldx u anchors,
          non200 (net v 0) = true := by
        intro v hv
        have hnm : v ∉ [u] := candidateUrls_not_mem tldx u anchors [u] v hv
        exact h4 v (fun he => hnm (he ▸ List.mem_cons_self u []))
      have hlen : (followCandidates tldx u anchors).length ≤ f := by omega
      have hloop : crawlLoop tldx net u (f + 1) [u] [u] [] initSocial []
          = (addEmails [] es, (anchorsFold tldx u anchors initSocial [u]).1,
             [(u, 0)] ++ (followCandidates tldx u anchors).map
               (fun v => (v, 0))) := by
        simp only [crawlLoop, hT, List.nil_append]
        rw [(anchorsFold_spec tldx u anchors initSocial [u]).1]
        rw [show candidateUrls tldx u anchors [u]
            = followCandidates tldx u anchors from rfl]
        exact crawlLoop_drain tldx net u (followCandidates tldx u anchors) f
          (anchorsFold tldx u anchors initSocial [u]).2.1 (addEmails [] es)
          (anchorsFold tldx u anchors initSocial [u]).1 [(u, 0)]
          hdrainhyp hlen
      rw [show (fetch_page_emails_and_social tldx net (f + 1) cache
            (some u)).2.2
          = (crawlLoop tldx net u (f + 1) [u] [u] [] initSocial []).2.2 from by
            simp [fetch_page_emails_and_social, h1, h2]]
      rw [hloop]
      have hcomp : (Prod.fst ∘ fun v : String => (v, (0 : Nat)))
          = fun v => v := rfl
      simp [hcomp]

theorem C8_follow_links_witness :
    (fetch_page_emails_and_social tldxX netC8w 2 []
        (some "http://x.com")).2.2.map Prod.fst
      = "http://x.com" :: followCandidates tldxX "http://x.com"
          [{ text := "", href := "/contact" }] :=
  C8_follow_links tldxX netC8w 2 [] "http://x.com" []
    [{ text := "", href := "/contact" }] (by decide) (by decide) (by decide)
    (fun v hv => by
      have hvb : (v == "http://x.com") = false := beq_eq_false_iff_ne.mpr hv
      simp [netC8w, hvb, non200])
    (by decide)

/-! ## Concurrency bound of the semaphore gate (C7) -/

/-- All workers start off the gate. -/
theorem countP_running_replicate (n : Nat) :
    (List.replicate n WStatus.waiting).countP isRunning = 0 := by
  induction n with
  | zero => rfl
  | succ m ih => simp [List.replicate, List.countP_cons, ih, isRunning]

/-- Updating one slot trades its contribution to a `countP`. -/
theorem countP_set_eq (p : WStatus → Bool) :
    ∀ (l : List WStatus) (i : Nat) (a b : WStatus), l[i]? = some a →
      (l.set i b).countP p + (if p a then 1 else 0)
        = l.countP p + (if p b then 1 else 0) := by
  intro l
  induction l with
  | nil => intro i a b h; simp at h
  | cons x xs ih =>
      intro i a b h
      cases i with
      | zero =>
          have hx : x = a := by simpa using h
          subst hx
          simp only [List.set, List.countP_cons]
          omega
      | succ j =>
          have hj : xs[j]? = some a := by simpa using h
          have := ih j a b hj
          simp only [List.set, List.countP_cons]
          omega

/-- The semaphore invariant: free slots plus in-flight crawls always
equal the concurrency limit, and the worker count is preserved. -/
theorem semInvariant (k n : Nat) :
    ∀ s, SemReachable k n s →
      s.avail + runningCount s = k ∧ s.workers.length = n := by
  intro s h
  induction h with
  | init =>
      refine ⟨?_, by simp [initSemState]⟩
      show k + runningCount (initSemState k n) = k
      simp [initSemState, runningCount, countP_running_replicate]
  | step s s' hs hstep ih =>
      obtain ⟨ih1, ih2⟩ := ih
      simp only [runningCount] at ih1
      cases hstep with
      | acquire i a h ha =>
          have hc := countP_set_eq isRunning s.workers i
            WStatus.waiting WStatus.running h
          rw [show isRunning WStatus.waiting = false from rfl,
            show isRunning WStatus.running = true from rfl] at hc
          simp at hc
          constructor
          · show a + (s.workers.set i WStatus.running).countP isRunning = k
            omega
          · show (s.workers.set i WStatus.running).length = n
            rw [List.length_set]
            exact ih2
      | release i h =>
          have hc := countP_set_eq isRunning s.workers i
            WStatus.running WStatus.done h
          rw [show isRunning WStatus.running = true from rfl,
            show isRunning WStatus.done = false from rfl] at hc
          simp at hc
          constructor
          · show s.avail + 1
                + (s.workers.set i WStatus.done).countP isRunning = k
            omega
          · show (s.workers.set i WStatus.done).length = n
            rw [List.length_set]
            exact ih2

/-- C7: in every state reachable from the start of a batch with
concurrency limit `k` and `n` workers, the number of in-flight crawls
never exceeds `k`; free slots plus in-flight crawls equal `k` exactly
(each slot is released exactly once per completed or failed crawl),
and no worker appears or disappears. -/
theorem C7_concurrency_bound (k n : Nat) (s : SemState)
    (h : SemReachable k n s) :
    runningCount s ≤ k ∧ s.avail + runningCount s = k ∧
    s.workers.length = n := by
  obtain ⟨h1, h2⟩ := semInvariant k n s h
  exact ⟨by omega, h1, h2⟩

theorem C7_concurrency_bound_witness :
    runningCount semS1 ≤ 2 ∧ semS1.avail + runningCount semS1 = 2 := by
  have hreach : SemReachable 2 3 semS1 :=
    SemReachable.step (initSemState 2 3) semS1 SemReachable.init
      (SemStep.acquire (initSemState 2 3) 0 1 rfl rfl)
  exact ⟨(C7_concurrency_bound 2 3 semS1 hreach).1,
         (C7_concurrency_bound 2 3 semS1 hreach).2.1⟩
